import Mathlib

/-!
# Verification of the helium-wallet mnemonic decoder

A shallow embedding of `src/mnemonic/mod.rs`: the word resolver
(`Language::find_english_word`), the twelve-word decoder
(`mnemonic_to_entropy`) and its helper (`binary_to_bytes`), together with
theorems about word lookup, bit packing, checksum validation and the
entropy duplication rule.

Rust strings are modelled as lists of UTF-8 bytes (`List Nat`), so that the
byte-indexed slicing done by the resolver (and the panic it performs when
byte offset 4 is not a character boundary) is represented faithfully.
Rust code that may panic returns a `RunOut`; the decoder, whose `Result`
may also carry one of the three error strings, returns a `DecodeOut`.
-/

set_option maxRecDepth 20000

/-- Outcome of running Rust code that either panics or returns a value. -/
inductive RunOut (α : Type) where
  | panicked (msg : String)
  | returned (a : α)
deriving DecidableEq

/-- The three error kinds produced by `mnemonic_to_entropy`: the word-count
error ("Invalid number of seed words"), the unknown-word error ("Seed word
{word} not found in wordlist", carrying the offending word), and the
checksum error ("invalid checksum"). -/
inductive DecodeErr where
  | wordCount
  | unknownWord (w : List Nat)
  | checksum
deriving DecidableEq

/-- Outcome of the decoder: a panic, a returned error, or a value. -/
inductive DecodeOut (α : Type) where
  | panicked (msg : String)
  | failed (e : DecodeErr)
  | done (a : α)
deriving DecidableEq

/-- Byte list of an ASCII Lean string literal (used to embed the Rust
string literals of the source and its tests). -/
def strBytes (s : String) : List Nat :=
  s.toList.map Char.toNat

/-- `u8::to_ascii_lowercase` applied to every byte, i.e. Rust's
`str::to_ascii_lowercase`: bytes 65-90 (A-Z) are shifted to 97-122 (a-z),
all other bytes (including UTF-8 continuation bytes) are unchanged. -/
def toAsciiLowercase (s : List Nat) : List Nat :=
  s.map fun b => if 65 ≤ b ∧ b ≤ 90 then b + 32 else b

/-- Rust's `str::is_char_boundary`: true at 0 and at the total length,
and otherwise exactly when the byte at `i` is not a UTF-8 continuation
byte (`0x80..0xBF`). -/
def isCharBoundary (s : List Nat) (i : Nat) : Bool :=
  if i = 0 then true
  else
    match s[i]? with
    | none => i == s.length
    | some b => decide (b < 128 ∨ 192 ≤ b)

def charBoundaryMsg : String :=
  "byte index is not a char boundary"

/-- Rust's byte slice `s[..i]` on a string: panics unless `i` is a char
boundary, otherwise yields the first `i` bytes. -/
def sliceTo (s : List Nat) (i : Nat) : RunOut (List Nat) :=
  if isCharBoundary s i then .returned (s.take i) else .panicked charBoundaryMsg
/-- Modelled from the spec: the English dictionary resource. The repository
generates this word list at build time (include of OUT_DIR english.rs, produced
by a build script that is not under src). The spec describes it as an ordered,
immutable sequence of 2048 distinct lowercase ASCII words indexed 0..2047, and
the source comment identifies it as the BIP39 English word list, whose first
four letters identify each word unambiguously. -/
def WORDS_ENGLISH_STR : List String := [
"abandon", "ability", "able", "about", "above", "absent", "absorb", "abstract", "absurd", "abuse",
"access", "accident", "account", "accuse", "achieve", "acid", "acoustic", "acquire", "across", "act",
"action", "actor", "actress", "actual", "adapt", "add", "addict", "address", "adjust", "admit",
"adult", "advance", "advice", "aerobic", "affair", "afford", "afraid", "again", "age", "agent",
"agree", "ahead", "aim", "air", "airport", "aisle", "alarm", "album", "alcohol", "alert",
"alien", "all", "alley", "allow", "almost", "alone", "alpha", "already", "also", "alter",
"always", "amateur", "amazing", "among", "amount", "amused", "analyst", "anchor", "ancient", "anger",
"angle", "angry", "animal", "ankle", "announce", "annual", "another", "answer", "antenna", "antique",
"anxiety", "any", "apart", "apology", "appear", "apple", "approve", "april", "arch", "arctic",
"area", "arena", "argue", "arm", "armed", "armor", "army", "around", "arrange", "arrest",
"arrive", "arrow", "art", "artefact", "artist", "artwork", "ask", "aspect", "assault", "asset",
"assist", "assume", "asthma", "athlete", "atom", "attack", "attend", "attitude", "attract", "auction",
"audit", "august", "aunt", "author", "auto", "autumn", "average", "avocado", "avoid", "awake",
"aware", "away", "awesome", "awful", "awkward", "axis", "baby", "bachelor", "bacon", "badge",
"bag", "balance", "balcony", "ball", "bamboo", "banana", "banner", "bar", "barely", "bargain",
"barrel", "base", "basic", "basket", "battle", "beach", "bean", "beauty", "because", "become",
"beef", "before", "begin", "behave", "behind", "believe", "below", "belt", "bench", "benefit",
"best", "betray", "better", "between", "beyond", "bicycle", "bid", "bike", "bind", "biology",
"bird", "birth", "bitter", "black", "blade", "blame", "blanket", "blast", "bleak", "bless",
"blind", "blood", "blossom", "blouse", "blue", "blur", "blush", "board", "boat", "body",
"boil", "bomb", "bone", "bonus", "book", "boost", "border", "boring", "borrow", "boss",
"bottom", "bounce", "box", "boy", "bracket", "brain", "brand", "brass", "brave", "bread",
"breeze", "brick", "bridge", "brief", "bright", "bring", "brisk", "broccoli", "broken", "bronze",
"broom", "brother", "brown", "brush", "bubble", "buddy", "budget", "buffalo", "build", "bulb",
"bulk", "bullet", "bundle", "bunker", "burden", "burger", "burst", "bus", "business", "busy",
"butter", "buyer", "buzz", "cabbage", "cabin", "cable", "cactus", "cage", "cake", "call",
"calm", "camera", "camp", "can", "canal", "cancel", "candy", "cannon", "canoe", "canvas",
"canyon", "capable", "capital", "captain", "car", "carbon", "card", "cargo", "carpet", "carry",
"cart", "case", "cash", "casino", "castle", "casual", "cat", "catalog", "catch", "category",
"cattle", "caught", "cause", "caution", "cave", "ceiling", "celery", "cement", "census", "century",
"cereal", "certain", "chair", "chalk", "champion", "change", "chaos", "chapter", "charge", "chase",
"chat", "cheap", "check", "cheese", "chef", "cherry", "chest", "chicken", "chief", "child",
"chimney", "choice", "choose", "chronic", "chuckle", "chunk", "churn", "cigar", "cinnamon", "circle",
"citizen", "city", "civil", "claim", "clap", "clarify", "claw", "clay", "clean", "clerk",
"clever", "click", "client", "cliff", "climb", "clinic", "clip", "clock", "clog", "close",
"cloth", "cloud", "clown", "club", "clump", "cluster", "clutch", "coach", "coast", "coconut",
"code", "coffee", "coil", "coin", "collect", "color", "column", "combine", "come", "comfort",
"comic", "common", "company", "concert", "conduct", "confirm", "congress", "connect", "consider", "control",
"convince", "cook", "cool", "copper", "copy", "coral", "core", "corn", "correct", "cost",
"cotton", "couch", "country", "couple", "course", "cousin", "cover", "coyote", "crack", "cradle",
"craft", "cram", "crane", "crash", "crater", "crawl", "crazy", "cream", "credit", "creek",
"crew", "cricket", "crime", "crisp", "critic", "crop", "cross", "crouch", "crowd", "crucial",
"cruel", "cruise", "crumble", "crunch", "crush", "cry", "crystal", "cube", "culture", "cup",
"cupboard", "curious", "current", "curtain", "curve", "cushion", "custom", "cute", "cycle", "dad",
"damage", "damp", "dance", "danger", "daring", "dash", "daughter", "dawn", "day", "deal",
"debate", "debris", "decade", "december", "decide", "decline", "decorate", "decrease", "deer", "defense",
"define", "defy", "degree", "delay", "deliver", "demand", "demise", "denial", "dentist", "deny",
"depart", "depend", "deposit", "depth", "deputy", "derive", "describe", "desert", "design", "desk",
"despair", "destroy", "detail", "detect", "develop", "device", "devote", "diagram", "dial", "diamond",
"diary", "dice", "diesel", "diet", "differ", "digital", "dignity", "dilemma", "dinner", "dinosaur",
"direct", "dirt", "disagree", "discover", "disease", "dish", "dismiss", "disorder", "display", "distance",
"divert", "divide", "divorce", "dizzy", "doctor", "document", "dog", "doll", "dolphin", "domain",
"donate", "donkey", "donor", "door", "dose", "double", "dove", "draft", "dragon", "drama",
"drastic", "draw", "dream", "dress", "drift", "drill", "drink", "drip", "drive", "drop",
"drum", "dry", "duck", "dumb", "dune", "during", "dust", "dutch", "duty", "dwarf",
"dynamic", "eager", "eagle", "early", "earn", "earth", "easily", "east", "easy", "echo",
"ecology", "economy", "edge", "edit", "educate", "effort", "egg", "eight", "either", "elbow",
"elder", "electric", "elegant", "element", "elephant", "elevator", "elite", "else", "embark", "embody",
"embrace", "emerge", "emotion", "employ", "empower", "empty", "enable", "enact", "end", "endless",
"endorse", "enemy", "energy", "enforce", "engage", "engine", "enhance", "enjoy", "enlist", "enough",
"enrich", "enroll", "ensure", "enter", "entire", "entry", "envelope", "episode", "equal", "equip",
"era", "erase", "erode", "erosion", "error", "erupt", "escape", "essay", "essence", "estate",
"eternal", "ethics", "evidence", "evil", "evoke", "evolve", "exact", "example", "excess", "exchange",
"excite", "exclude", "excuse", "execute", "exercise", "exhaust", "exhibit", "exile", "exist", "exit",
"exotic", "expand", "expect", "expire", "explain", "expose", "express", "extend", "extra", "eye",
"eyebrow", "fabric", "face", "faculty", "fade", "faint", "faith", "fall", "false", "fame",
"family", "famous", "fan", "fancy", "fantasy", "farm", "fashion", "fat", "fatal", "father",
"fatigue", "fault", "favorite", "feature", "february", "federal", "fee", "feed", "feel", "female",
"fence", "festival", "fetch", "fever", "few", "fiber", "fiction", "field", "figure", "file",
"film", "filter", "final", "find", "finger", "finish", "fire", "firm", "first", "fiscal",
"fish", "fist", "fit", "fitness", "fix", "flag", "flame", "flash", "flat", "flavor",
"flee", "flight", "flip", "float", "flock", "floor", "flower", "fluid", "flush", "fly",
"foam", "focus", "fog", "foil", "fold", "follow", "food", "foot", "force", "forest",
"forget", "fork", "fortune", "forum", "forward", "fossil", "foster", "found", "fox", "fragile",
"frame", "frequent", "fresh", "friend", "fringe", "frog", "front", "frost", "frown", "frozen",
"fruit", "fuel", "fun", "funny", "furnace", "fury", "future", "gadget", "gain", "galaxy",
"gallery", "game", "gap", "garage", "garbage", "garden", "garlic", "garment", "gas", "gasp",
"gate", "gather", "gauge", "gaze", "general", "genius", "genre", "gentle", "genuine", "gesture",
"ghost", "giant", "gift", "giggle", "ginger", "giraffe", "girl", "give", "glad", "glance",
"glare", "glass", "glide", "glimpse", "globe", "gloom", "glory", "glove", "glow", "glue",
"goat", "goddess", "gold", "good", "goose", "gorilla", "gospel", "gossip", "govern", "gown",
"grab", "grace", "grain", "grant", "grape", "grass", "gravity", "great", "green", "grid",
"grief", "grit", "grocery", "group", "grow", "grunt", "guard", "guess", "guide", "guilt",
"guitar", "gun", "gym", "habit", "hair", "half", "hammer", "hamster", "hand", "happy",
"harbor", "hard", "harsh", "harvest", "hat", "have", "hawk", "hazard", "head", "health",
"heart", "heavy", "hedgehog", "height", "hello", "helmet", "help", "hen", "hero", "hidden",
"high", "hill", "hint", "hip", "hire", "history", "hobby", "hockey", "hold", "hole",
"holiday", "hollow", "home", "honey", "hood", "hope", "horn", "horror", "horse", "hospital",
"host", "hotel", "hour", "hover", "hub", "huge", "human", "humble", "humor", "hundred",
"hungry", "hunt", "hurdle", "hurry", "hurt", "husband", "hybrid", "ice", "icon", "idea",
"identify", "idle", "ignore", "ill", "illegal", "illness", "image", "imitate", "immense", "immune",
"impact", "impose", "improve", "impulse", "inch", "include", "income", "increase", "index", "indicate",
"indoor", "industry", "infant", "inflict", "inform", "inhale", "inherit", "initial", "inject", "injury",
"inmate", "inner", "innocent", "input", "inquiry", "insane", "insect", "inside", "inspire", "install",
"intact", "interest", "into", "invest", "invite", "involve", "iron", "island", "isolate", "issue",
"item", "ivory", "jacket", "jaguar", "jar", "jazz", "jealous", "jeans", "jelly", "jewel",
"job", "join", "joke", "journey", "joy", "judge", "juice", "jump", "jungle", "junior",
"junk", "just", "kangaroo", "keen", "keep", "ketchup", "key", "kick", "kid", "kidney",
"kind", "kingdom", "kiss", "kit", "kitchen", "kite", "kitten", "kiwi", "knee", "knife",
"knock", "know", "lab", "label", "labor", "ladder", "lady", "lake", "lamp", "language",
"laptop", "large", "later", "latin", "laugh", "laundry", "lava", "law", "lawn", "lawsuit",
"layer", "lazy", "leader", "leaf", "learn", "leave", "lecture", "left", "leg", "legal",
"legend", "leisure", "lemon", "lend", "length", "lens", "leopard", "lesson", "letter", "level",
"liar", "liberty", "library", "license", "life", "lift", "light", "like", "limb", "limit",
"link", "lion", "liquid", "list", "little", "live", "lizard", "load", "loan", "lobster",
"local", "lock", "logic", "lonely", "long", "loop", "lottery", "loud", "lounge", "love",
"loyal", "lucky", "luggage", "lumber", "lunar", "lunch", "luxury", "lyrics", "machine", "mad",
"magic", "magnet", "maid", "mail", "main", "major", "make", "mammal", "man", "manage",
"mandate", "mango", "mansion", "manual", "maple", "marble", "march", "margin", "marine", "market",
"marriage", "mask", "mass", "master", "match", "material", "math", "matrix", "matter", "maximum",
"maze", "meadow", "mean", "measure", "meat", "mechanic", "medal", "media", "melody", "melt",
"member", "memory", "mention", "menu", "mercy", "merge", "merit", "merry", "mesh", "message",
"metal", "method", "middle", "midnight", "milk", "million", "mimic", "mind", "minimum", "minor",
"minute", "miracle", "mirror", "misery", "miss", "mistake", "mix", "mixed", "mixture", "mobile",
"model", "modify", "mom", "moment", "monitor", "monkey", "monster", "month", "moon", "moral",
"more", "morning", "mosquito", "mother", "motion", "motor", "mountain", "mouse", "move", "movie",
"much", "muffin", "mule", "multiply", "muscle", "museum", "mushroom", "music", "must", "mutual",
"myself", "mystery", "myth", "naive", "name", "napkin", "narrow", "nasty", "nation", "nature",
"near", "neck", "need", "negative", "neglect", "neither", "nephew", "nerve", "nest", "net",
"network", "neutral", "never", "news", "next", "nice", "night", "noble", "noise", "nominee",
"noodle", "normal", "north", "nose", "notable", "note", "nothing", "notice", "novel", "now",
"nuclear", "number", "nurse", "nut", "oak", "obey", "object", "oblige", "obscure", "observe",
"obtain", "obvious", "occur", "ocean", "october", "odor", "off", "offer", "office", "often",
"oil", "okay", "old", "olive", "olympic", "omit", "once", "one", "onion", "online",
"only", "open", "opera", "opinion", "oppose", "option", "orange", "orbit", "orchard", "order",
"ordinary", "organ", "orient", "original", "orphan", "ostrich", "other", "outdoor", "outer", "output",
"outside", "oval", "oven", "over", "own", "owner", "oxygen", "oyster", "ozone", "pact",
"paddle", "page", "pair", "palace", "palm", "panda", "panel", "panic", "panther", "paper",
"parade", "parent", "park", "parrot", "party", "pass", "patch", "path", "patient", "patrol",
"pattern", "pause", "pave", "payment", "peace", "peanut", "pear", "peasant", "pelican", "pen",
"penalty", "pencil", "people", "pepper", "perfect", "permit", "person", "pet", "phone", "photo",
"phrase", "physical", "piano", "picnic", "picture", "piece", "pig", "pigeon", "pill", "pilot",
"pink", "pioneer", "pipe", "pistol", "pitch", "pizza", "place", "planet", "plastic", "plate",
"play", "please", "pledge", "pluck", "plug", "plunge", "poem", "poet", "point", "polar",
"pole", "police", "pond", "pony", "pool", "popular", "portion", "position", "possible", "post",
"potato", "pottery", "poverty", "powder", "power", "practice", "praise", "predict", "prefer", "prepare",
"present", "pretty", "prevent", "price", "pride", "primary", "print", "priority", "prison", "private",
"prize", "problem", "process", "produce", "profit", "program", "project", "promote", "proof", "property",
"prosper", "protect", "proud", "provide", "public", "pudding", "pull", "pulp", "pulse", "pumpkin",
"punch", "pupil", "puppy", "purchase", "purity", "purpose", "purse", "push", "put", "puzzle",
"pyramid", "quality", "quantum", "quarter", "question", "quick", "quit", "quiz", "quote", "rabbit",
"raccoon", "race", "rack", "radar", "radio", "rail", "rain", "raise", "rally", "ramp",
"ranch", "random", "range", "rapid", "rare", "rate", "rather", "raven", "raw", "razor",
"ready", "real", "reason", "rebel", "rebuild", "recall", "receive", "recipe", "record", "recycle",
"reduce", "reflect", "reform", "refuse", "region", "regret", "regular", "reject", "relax", "release",
"relief", "rely", "remain", "remember", "remind", "remove", "render", "renew", "rent", "reopen",
"repair", "repeat", "replace", "report", "require", "rescue", "resemble", "resist", "resource", "response",
"result", "retire", "retreat", "return", "reunion", "reveal", "review", "reward", "rhythm", "rib",
"ribbon", "rice", "rich", "ride", "ridge", "rifle", "right", "rigid", "ring", "riot",
"ripple", "risk", "ritual", "rival", "river", "road", "roast", "robot", "robust", "rocket",
"romance", "roof", "rookie", "room", "rose", "rotate", "rough", "round", "route", "royal",
"rubber", "rude", "rug", "rule", "run", "runway", "rural", "sad", "saddle", "sadness",
"safe", "sail", "salad", "salmon", "salon", "salt", "salute", "same", "sample", "sand",
"satisfy", "satoshi", "sauce", "sausage", "save", "say", "scale", "scan", "scare", "scatter",
"scene", "scheme", "school", "science", "scissors", "scorpion", "scout", "scrap", "screen", "script",
"scrub", "sea", "search", "season", "seat", "second", "secret", "section", "security", "seed",
"seek", "segment", "select", "sell", "seminar", "senior", "sense", "sentence", "series", "service",
"session", "settle", "setup", "seven", "shadow", "shaft", "shallow", "share", "shed", "shell",
"sheriff", "shield", "shift", "shine", "ship", "shiver", "shock", "shoe", "shoot", "shop",
"short", "shoulder", "shove", "shrimp", "shrug", "shuffle", "shy", "sibling", "sick", "side",
"siege", "sight", "sign", "silent", "silk", "silly", "silver", "similar", "simple", "since",
"sing", "siren", "sister", "situate", "six", "size", "skate", "sketch", "ski", "skill",
"skin", "skirt", "skull", "slab", "slam", "sleep", "slender", "slice", "slide", "slight",
"slim", "slogan", "slot", "slow", "slush", "small", "smart", "smile", "smoke", "smooth",
"snack", "snake", "snap", "sniff", "snow", "soap", "soccer", "social", "sock", "soda",
"soft", "solar", "soldier", "solid", "solution", "solve", "someone", "song", "soon", "sorry",
"sort", "soul", "sound", "soup", "source", "south", "space", "spare", "spatial", "spawn",
"speak", "special", "speed", "spell", "spend", "sphere", "spice", "spider", "spike", "spin",
"spirit", "split", "spoil", "sponsor", "spoon", "sport", "spot", "spray", "spread", "spring",
"spy", "square", "squeeze", "squirrel", "stable", "stadium", "staff", "stage", "stairs", "stamp",
"stand", "start", "state", "stay", "steak", "steel", "stem", "step", "stereo", "stick",
"still", "sting", "stock", "stomach", "stone", "stool", "story", "stove", "strategy", "street",
"strike", "strong", "struggle", "student", "stuff", "stumble", "style", "subject", "submit", "subway",
"success", "such", "sudden", "suffer", "sugar", "suggest", "suit", "summer", "sun", "sunny",
"sunset", "super", "supply", "supreme", "sure", "surface", "surge", "surprise", "surround", "survey",
"suspect", "sustain", "swallow", "swamp", "swap", "swarm", "swear", "sweet", "swift", "swim",
"swing", "switch", "sword", "symbol", "symptom", "syrup", "system", "table", "tackle", "tag",
"tail", "talent", "talk", "tank", "tape", "target", "task", "taste", "tattoo", "taxi",
"teach", "team", "tell", "ten", "tenant", "tennis", "tent", "term", "test", "text",
"thank", "that", "theme", "then", "theory", "there", "they", "thing", "this", "thought",
"three", "thrive", "throw", "thumb", "thunder", "ticket", "tide", "tiger", "tilt", "timber",
"time", "tiny", "tip", "tired", "tissue", "title", "toast", "tobacco", "today", "toddler",
"toe", "together", "toilet", "token", "tomato", "tomorrow", "tone", "tongue", "tonight", "tool",
"tooth", "top", "topic", "topple", "torch", "tornado", "tortoise", "toss", "total", "tourist",
"toward", "tower", "town", "toy", "track", "trade", "traffic", "tragic", "train", "transfer",
"trap", "trash", "travel", "tray", "treat", "tree", "trend", "trial", "tribe", "trick",
"trigger", "trim", "trip", "trophy", "trouble", "truck", "true", "truly", "trumpet", "trust",
"truth", "try", "tube", "tuition", "tumble", "tuna", "tunnel", "turkey", "turn", "turtle",
"twelve", "twenty", "twice", "twin", "twist", "two", "type", "typical", "ugly", "umbrella",
"unable", "unaware", "uncle", "uncover", "under", "undo", "unfair", "unfold", "unhappy", "uniform",
"unique", "unit", "universe", "unknown", "unlock", "until", "unusual", "unveil", "update", "upgrade",
"uphold", "upon", "upper", "upset", "urban", "urge", "usage", "use", "used", "useful",
"useless", "usual", "utility", "vacant", "vacuum", "vague", "valid", "valley", "valve", "van",
"vanish", "vapor", "various", "vast", "vault", "vehicle", "velvet", "vendor", "venture", "venue",
"verb", "verify", "version", "very", "vessel", "veteran", "viable", "vibrant", "vicious", "victory",
"video", "view", "village", "vintage", "violin", "virtual", "virus", "visa", "visit", "visual",
"vital", "vivid", "vocal", "voice", "void", "volcano", "volume", "vote", "voyage", "wage",
"wagon", "wait", "walk", "wall", "walnut", "want", "warfare", "warm", "warrior", "wash",
"wasp", "waste", "water", "wave", "way", "wealth", "weapon", "wear", "weasel", "weather",
"web", "wedding", "weekend", "weird", "welcome", "west", "wet", "whale", "what", "wheat",
"wheel", "when", "where", "whip", "whisper", "wide", "width", "wife", "wild", "will",
"win", "window", "wine", "wing", "wink", "winner", "winter", "wire", "wisdom", "wise",
"wish", "witness", "wolf", "woman", "wonder", "wood", "wool", "word", "work", "world",
"worry", "worth", "wrap", "wreck", "wrestle", "wrist", "write", "wrong", "yard", "year",
"yellow", "you", "young", "youth", "zebra", "zero", "zone", "zoo"]

/-- The dictionary as byte lists, as compared against by the resolver. -/
def WORDS_ENGLISH : List (List Nat) :=
  WORDS_ENGLISH_STR.map strBytes

/-- The scan loop of `Language::find_english_word`: iterate over the word
list with its enumeration index; at each word, when both the (lowercased)
user word and the list word have byte length at least `MIN_CMP_LEN = 4`,
compare the first four bytes (Rust slices both strings, panicking if byte
offset 4 is not a character boundary) and return the index on a match;
independently return the index on full equality; otherwise continue. -/
def findWordAux (uw : List Nat) : List (List Nat) → Nat → RunOut (Option Nat)
  | [], _ => .returned none
  | lw :: rest, idx =>
    if 4 ≤ uw.length ∧ 4 ≤ lw.length then
      match sliceTo uw 4 with
      | .panicked m => .panicked m
      | .returned u4 =>
        match sliceTo lw 4 with
        | .panicked m => .panicked m
        | .returned w4 =>
          if u4 = w4 then .returned (some idx)
          else if uw = lw then .returned (some idx)
          else findWordAux uw rest (idx + 1)
    else if uw = lw then .returned (some idx)
    else findWordAux uw rest (idx + 1)

/-- `Language::find_english_word`: lowercase the user word, then scan the
English dictionary. -/
def find_english_word (user_word : List Nat) : RunOut (Option Nat) :=
  findWordAux (toAsciiLowercase user_word) WORDS_ENGLISH 0

/-- `Language::find_word` for the only language variant, `English`. -/
def find_word (user_word : List Nat) : RunOut (Option Nat) :=
  find_english_word user_word

/-- Binary digits of `n`, most significant first, as rendered by Rust's
`format!("{:b}", n)` (in particular `0` renders as "0"); `Nat.toDigits`
at base 2 computes exactly this rendering. -/
def binDigits (n : Nat) : List Char :=
  Nat.toDigits 2 n

/-- `format!("{:011b}", n)`: the binary rendering of `n`, zero-padded on
the left to a width of at least 11 characters. -/
def format011 (n : Nat) : List Char :=
  List.replicate (11 - (binDigits n).length) '0' ++ binDigits n

/-- Value of one binary digit character, as accepted by
`usize::from_str_radix(_, 2)`. -/
def binDigitVal (c : Char) : Option Nat :=
  if c = '0' then some 0 else if c = '1' then some 1 else none

def parseBinAux : List Char → Nat → Option Nat
  | [], acc => some acc
  | c :: cs, acc =>
    match binDigitVal c with
    | none => none
    | some d => parseBinAux cs (acc * 2 + d)

/-- `usize::from_str_radix(bin, 2)`: fails on an empty string or on any
character that is not a binary digit. (The Rust parser also accepts a
leading sign character; no reachable input of this program contains one,
and the embedding omits it.) -/
def parseBin (s : List Char) : Option Nat :=
  if s = [] then none else parseBinAux s 0

def unwrapErrMsg : String :=
  "called unwrap on an Err value"

/-- `binary_to_bytes`: parse a binary string, panicking (via `unwrap`) when
the parse fails. -/
def binary_to_bytes (bin : List Char) : RunOut Nat :=
  match parseBin bin with
  | some n => .returned n
  | none => .panicked unwrapErrMsg

/-- The matches of the regex `(.{1,8})` over the entropy bit string, in
order: consecutive chunks of up to eight characters. (The regex dot does
not match a newline; no reachable bit string contains one.) -/
def chunksUpTo8 : List Char → List (List Char)
  | [] => []
  | a :: b :: c :: d :: e :: f :: g :: h :: rest =>
    [a, b, c, d, e, f, g, h] :: chunksUpTo8 rest
  | l => [l]

def outOfBoundsMsg : String :=
  "index out of bounds"

/-- The reconstruction loop: for each regex match, in order, parse it and
store the low byte at the next position of `entropy_base`; a Rust array
write out of bounds panics. -/
def writeBytes : List (List Char) → List Nat → Nat → RunOut (List Nat)
  | [], arr, _ => .returned arr
  | c :: rest, arr, idx =>
    match binary_to_bytes c with
    | .panicked m => .panicked m
    | .returned v =>
      if idx < arr.length then writeBytes rest (arr.set idx (v % 256)) (idx + 1)
      else .panicked outOfBoundsMsg

/-- The divider position `((bits.len() as f64 / 33.0) * 32.0).floor()`.
The only length reachable in `mnemonic_to_entropy` is 132 (twelve resolved
words of eleven bits each), where the `f64` computation is exact:
`132 / 33.0 = 4.0` and `4.0 * 32.0 = 128.0`, so both the source expression
and this integer form yield 128. -/
def dividerIndex (len : Nat) : Nat :=
  len * 32 / 33

/-- The first loop of `mnemonic_to_entropy`: resolve each word in phrase
order, failing at the first word the resolver cannot find (naming it), and
collect `format!("{:011b}", idx)` for each resolved index. -/
def bitVecLoop : List (List Nat) → DecodeOut (List (List Char))
  | [] => .done []
  | w :: ws =>
    match find_word w with
    | .panicked m => .panicked m
    | .returned none => .failed (.unknownWord w)
    | .returned (some idx) =>
      match bitVecLoop ws with
      | .panicked m => .panicked m
      | .failed e => .failed e
      | .done rest => .done (format011 idx :: rest)

/-- The tail of `mnemonic_to_entropy` after the resolution loop: join the
per-word bit strings, split at the divider, require the checksum region
(the part after the divider) to be the literal "0000", reconstruct 16
bytes from the entropy region (the part before the divider), and return
those bytes duplicated into a 32-byte buffer. -/
def assembleEntropy (bitVec : List (List Char)) : DecodeOut (List Nat) :=
  if bitVec.flatten.drop (dividerIndex bitVec.flatten.length) ≠ ['0', '0', '0', '0'] then
    .failed .checksum
  else
    match writeBytes (chunksUpTo8 (bitVec.flatten.take (dividerIndex bitVec.flatten.length)))
        (List.replicate 16 0) 0 with
    | .panicked m => .panicked m
    | .returned entropyBase => .done (entropyBase ++ entropyBase)

/-- `mnemonic_to_entropy`: check the word count, resolve all words, then
pack, validate and reconstruct via `assembleEntropy`. -/
def mnemonic_to_entropy (words : List (List Nat)) : DecodeOut (List Nat) :=
  if words.length ≠ 12 then .failed .wordCount
  else
    match bitVecLoop words with
    | .panicked m => .panicked m
    | .failed e => .failed e
    | .done bitVec => assembleEntropy bitVec

/-- Modelled from the spec: base58 decoding of the expected-entropy string
of the concrete scenarios. The `bs58` crate used by the repository's tests
is not under src; it decodes over the Bitcoin alphabet, interpreting the
input as a big-endian base-58 number and mapping each leading '1' to a
leading zero byte. -/
def BASE58_ALPHABET : List Char :=
  "123456789ABCDEFGHJKLMNPQRSTUVWXYZabcdefghijkmnopqrstuvwxyz".toList

def b58Val (c : Char) : Option Nat :=
  List.findIdx? (fun a => a = c) BASE58_ALPHABET

def b58Nat : List Char → Nat → Option Nat
  | [], acc => some acc
  | c :: cs, acc =>
    match b58Val c with
    | none => none
    | some d => b58Nat cs (acc * 58 + d)

/-- Big-endian bytes of a natural number (empty for zero), computed with a
structurally decreasing fuel argument (`n` itself bounds the byte count). -/
def natBytesAux : Nat → Nat → List Nat
  | 0, _ => []
  | fuel + 1, n => if n = 0 then [] else natBytesAux fuel (n / 256) ++ [n % 256]

def natBytes (n : Nat) : List Nat :=
  natBytesAux n n

def base58Decode (s : String) : Option (List Nat) :=
  match b58Nat s.toList 0 with
  | none => none
  | some n =>
    some (List.replicate (s.toList.takeWhile (fun c => c = '1')).length 0 ++ natBytes n)

/-- The twelve full seed words of concrete scenario 1 (the repository's
`decode_full_words` test). -/
def FULL_PHRASE_STR : List String :=
  ["catch", "poet", "clog", "intact", "scare", "jacket",
   "throw", "palm", "illegal", "buyer", "allow", "figure"]

def FULL_PHRASE : List (List Nat) :=
  FULL_PHRASE_STR.map strBytes

def B58_EXPECTED : String :=
  "3RrA1FDa6mdw5JwKbUxEbZbMcJgSyWjhNwxsbX5pSos8"

/-- The 32 expected entropy bytes (the base58 decoding of `B58_EXPECTED`). -/
def EXPECTED_ENTROPY : List Nat :=
  [0x24, 0x14, 0xe4, 0xae, 0x3a, 0xcc, 0x04, 0xee,
   0x38, 0x54, 0xfa, 0x71, 0x03, 0xec, 0x1a, 0xab,
   0x24, 0x14, 0xe4, 0xae, 0x3a, 0xcc, 0x04, 0xee,
   0x38, 0x54, 0xfa, 0x71, 0x03, 0xec, 0x1a, 0xab]

/-! ### Splitting the dictionary scan

Concrete resolver runs are evaluated in two halves of the dictionary so
that no single definitional-reduction chain is as deep as the full
2048-word scan. -/

def WE1 : List (List Nat) := (WORDS_ENGLISH_STR.take 1024).map strBytes

def WE2 : List (List Nat) := (WORDS_ENGLISH_STR.drop 1024).map strBytes

theorem WORDS_split : WORDS_ENGLISH = WE1 ++ WE2 := by
  simp only [WORDS_ENGLISH, WE1, WE2]
  rw [← List.map_append, List.take_append_drop]

theorem WE1_length : WE1.length = 1024 := by
  rw [WE1, List.length_map]
  exact rfl

/-- The scan of a concatenated word list: if the first part yields no
match, scanning continues through the second part with the index advanced
past the first. -/
theorem findWordAux_append (uw : List Nat) (A B : List (List Nat)) (k : Nat) :
    findWordAux uw (A ++ B) k =
      match findWordAux uw A k with
      | .returned none => findWordAux uw B (k + A.length)
      | r => r := by
  induction A generalizing k with
  | nil => simp [findWordAux]
  | cons lw rest ih =>
    simp only [List.cons_append, findWordAux]
    by_cases h1 : 4 ≤ uw.length ∧ 4 ≤ lw.length
    · simp only [if_pos h1]
      cases hsl : sliceTo uw 4 with
      | panicked m => rfl
      | returned u4 =>
        cases hsl2 : sliceTo lw 4 with
        | panicked m => rfl
        | returned w4 =>
          by_cases h2 : u4 = w4
          · simp [h2]
          · simp only [if_neg h2]
            by_cases h3 : uw = lw
            · simp [h3]
            · simp only [if_neg h3, List.length_cons, List.append_eq]
              rw [ih (k + 1)]
              have hk : k + 1 + rest.length = k + (rest.length + 1) := by omega
              rw [hk]
    · simp only [if_neg h1]
      by_cases h3 : uw = lw
      · simp [h3]
      · simp only [if_neg h3, List.length_cons, List.append_eq]
        rw [ih (k + 1)]
        have hk : k + 1 + rest.length = k + (rest.length + 1) := by omega
        rw [hk]

/-! ### Resolver runs on the concrete seed words -/

/-! ### Resolver runs on the concrete seed words -/

theorem find_catch : find_word (strBytes ("catch")) = .returned (some 288) := by decide

theorem find_clog : find_word (strBytes ("clog")) = .returned (some 348) := by decide

theorem find_intact : find_word (strBytes ("intact")) = .returned (some 940) := by decide

theorem find_jacket : find_word (strBytes ("jacket")) = .returned (some 952) := by decide

theorem find_illegal : find_word (strBytes ("illegal")) = .returned (some 904) := by decide

theorem find_buyer : find_word (strBytes ("buyer")) = .returned (some 251) := by decide

theorem find_allow : find_word (strBytes ("allow")) = .returned (some 53) := by decide

theorem find_figure : find_word (strBytes ("figure")) = .returned (some 688) := by decide

theorem find_abandon : find_word (strBytes ("abandon")) = .returned (some 0) := by decide

theorem find_ability : find_word (strBytes ("ability")) = .returned (some 1) := by decide

theorem find_poet : find_word (strBytes ("poet")) = .returned (some 1337) := by
  show findWordAux (toAsciiLowercase (strBytes ("poet"))) WORDS_ENGLISH 0 = _
  rw [WORDS_split, findWordAux_append,
    show findWordAux (toAsciiLowercase (strBytes ("poet"))) WE1 0 = .returned none by decide]
  show findWordAux (toAsciiLowercase (strBytes ("poet"))) WE2 (0 + WE1.length) = _
  rw [WE1_length]
  decide

theorem find_palm : find_word (strBytes ("palm")) = .returned (some 1274) := by
  show findWordAux (toAsciiLowercase (strBytes ("palm"))) WORDS_ENGLISH 0 = _
  rw [WORDS_split, findWordAux_append,
    show findWordAux (toAsciiLowercase (strBytes ("palm"))) WE1 0 = .returned none by decide]
  show findWordAux (toAsciiLowercase (strBytes ("palm"))) WE2 (0 + WE1.length) = _
  rw [WE1_length]
  decide

theorem find_scare : find_word (strBytes ("scare")) = .returned (some 1538) := by
  show findWordAux (toAsciiLowercase (strBytes ("scare"))) WORDS_ENGLISH 0 = _
  rw [WORDS_split, findWordAux_append,
    show findWordAux (toAsciiLowercase (strBytes ("scare"))) WE1 0 = .returned none by decide]
  show findWordAux (toAsciiLowercase (strBytes ("scare"))) WE2 (0 + WE1.length) = _
  rw [WE1_length]
  decide

theorem find_throw : find_word (strBytes ("throw")) = .returned (some 1802) := by
  show findWordAux (toAsciiLowercase (strBytes ("throw"))) WORDS_ENGLISH 0 = _
  rw [WORDS_split, findWordAux_append,
    show findWordAux (toAsciiLowercase (strBytes ("throw"))) WE1 0 = .returned none by decide]
  show findWordAux (toAsciiLowercase (strBytes ("throw"))) WE2 (0 + WE1.length) = _
  rw [WE1_length]
  decide

theorem find_zzzzz : find_word (strBytes ("zzzzz")) = .returned none := by
  show findWordAux (toAsciiLowercase (strBytes ("zzzzz"))) WORDS_ENGLISH 0 = _
  rw [WORDS_split, findWordAux_append,
    show findWordAux (toAsciiLowercase (strBytes ("zzzzz"))) WE1 0 = .returned none by decide]
  show findWordAux (toAsciiLowercase (strBytes ("zzzzz"))) WE2 (0 + WE1.length) = _
  rw [WE1_length]
  decide

/-! ### The resolution loop on fully resolving phrases -/

/-- If every word of the phrase resolves to the corresponding index, the
resolution loop succeeds with the eleven-bit renderings of the indices. -/
theorem bitVecLoop_of_resolved (ws : List (List Nat)) (idxs : List Nat)
    (h : ws.map find_word = idxs.map (fun i => RunOut.returned (some i))) :
    bitVecLoop ws = .done (idxs.map format011) := by
  induction ws generalizing idxs with
  | nil =>
    cases idxs with
    | nil => rfl
    | cons i t => simp at h
  | cons w ws ih =>
    cases idxs with
    | nil => simp at h
    | cons i t =>
      simp only [List.map_cons, List.cons.injEq] at h
      obtain ⟨h1, h2⟩ := h
      simp only [bitVecLoop, h1, ih t h2, List.map_cons]

/-- The dictionary indices of the twelve words of scenario 1. -/
def FULL_IDXS : List Nat :=
  [288, 1337, 348, 940, 1538, 952, 1802, 1274, 904, 251, 53, 688]

theorem full_phrase_resolves :
    FULL_PHRASE.map find_word = FULL_IDXS.map (fun i => RunOut.returned (some i)) := by
  simp only [FULL_PHRASE, FULL_PHRASE_STR, FULL_IDXS, List.map_cons, List.map_nil]
  rw [find_catch, find_poet, find_clog, find_intact, find_scare, find_jacket,
    find_throw, find_palm, find_illegal, find_buyer, find_allow, find_figure]

theorem decode_full : mnemonic_to_entropy FULL_PHRASE = .done EXPECTED_ENTROPY := by
  have hbv := bitVecLoop_of_resolved FULL_PHRASE FULL_IDXS full_phrase_resolves
  simp only [mnemonic_to_entropy, hbv]
  decide

theorem b58_expected : base58Decode B58_EXPECTED = some EXPECTED_ENTROPY := by decide

/-- C1: decoding the twelve-word phrase "catch poet clog intact scare
jacket throw palm illegal buyer allow figure" succeeds, and the returned
32 entropy bytes equal the base58 decoding of
"3RrA1FDa6mdw5JwKbUxEbZbMcJgSyWjhNwxsbX5pSos8". -/
theorem decode_full_words_matches_base58 :
    mnemonic_to_entropy FULL_PHRASE = .done EXPECTED_ENTROPY ∧
    base58Decode B58_EXPECTED = some EXPECTED_ENTROPY :=
  ⟨decode_full, b58_expected⟩

/-! ### The word resolver against the specification's matching rule -/

/-- Every byte of every dictionary word is ASCII (below 128). -/
theorem words_english_ascii :
    WORDS_ENGLISH.all (fun lw => lw.all (fun b => decide (b < 128))) = true := by
  rw [WORDS_split, List.all_append]
  rw [show WE1.all (fun lw => lw.all (fun b => decide (b < 128))) = true by decide]
  rw [show WE2.all (fun lw => lw.all (fun b => decide (b < 128))) = true by decide]
  rfl

/-- Byte offset `i` of an all-ASCII byte string is a character boundary
whenever it does not exceed the length. -/
theorem isCharBoundary_of_ascii (lw : List Nat)
    (ha : lw.all (fun b => decide (b < 128)) = true) (i : Nat) (hi : i ≤ lw.length) :
    isCharBoundary lw i = true := by
  unfold isCharBoundary
  by_cases h0 : i = 0
  · simp [h0]
  · simp only [if_neg h0]
    cases hge : lw[i]? with
    | none =>
      have hlen : lw.length ≤ i := List.getElem?_eq_none_iff.mp hge
      have : i = lw.length := le_antisymm hi hlen
      simp [this]
    | some b =>
      have hb : b ∈ lw := List.getElem?_mem hge
      have hlt : b < 128 := by
        have := List.all_eq_true.mp ha b hb
        simpa using this
      exact decide_eq_true (Or.inl hlt)

/-- The matching rule of the specification for one dictionary word: rule
(a) the lowercased user word and the dictionary word both have length at
least 4 and their first four bytes agree, or rule (b) the lowercased user
word equals the dictionary word. -/
def specMatch (w lw : List Nat) : Bool :=
  (decide (4 ≤ (toAsciiLowercase w).length) && decide (4 ≤ lw.length)
      && decide ((toAsciiLowercase w).take 4 = lw.take 4))
    || decide (toAsciiLowercase w = lw)

/-- The resolver contract stated by the specification: the smallest
dictionary index whose word matches under either rule, if any. -/
def resolveSpecEnglish (w : List Nat) : Option Nat :=
  List.findIdx? (specMatch w) WORDS_ENGLISH

/-- One scan step when slicing is safe: the same step expressed with
plain conditionals. -/
theorem findWordAux_cons_eq (uw lw : List Nat) (rest : List (List Nat)) (k : Nat)
    (hb : 4 ≤ uw.length ∧ 4 ≤ lw.length →
      isCharBoundary uw 4 = true ∧ isCharBoundary lw 4 = true) :
    findWordAux uw (lw :: rest) k =
      if 4 ≤ uw.length ∧ 4 ≤ lw.length then
        (if uw.take 4 = lw.take 4 then .returned (some k)
         else if uw = lw then .returned (some k)
         else findWordAux uw rest (k + 1))
      else if uw = lw then .returned (some k) else findWordAux uw rest (k + 1) := by
  by_cases h1 : 4 ≤ uw.length ∧ 4 ≤ lw.length
  · obtain ⟨hbu, hbl⟩ := hb h1
    simp only [findWordAux, if_pos h1, sliceTo, hbu, hbl, eq_self_iff_true, if_true]
  · simp only [findWordAux, if_neg h1]

/-- The scan agrees with the first-match rule whenever slicing the
(lowercased) user word is safe and every long-enough word of the list has
a character boundary at byte 4. -/
theorem findWordAux_eq_findIdx (uw : List Nat) (ws : List (List Nat)) (k : Nat)
    (hu : uw.length < 4 ∨ isCharBoundary uw 4 = true)
    (hws : ∀ lw ∈ ws, 4 ≤ lw.length → isCharBoundary lw 4 = true) :
    findWordAux uw ws k =
      .returned (List.findIdx? (fun lw =>
        ((decide (4 ≤ uw.length) && decide (4 ≤ lw.length)
            && decide (uw.take 4 = lw.take 4)) || decide (uw = lw))) ws k) := by
  induction ws generalizing k with
  | nil => simp [findWordAux, List.findIdx?]
  | cons lw rest ih =>
    have hrest : ∀ l ∈ rest, 4 ≤ l.length → isCharBoundary l 4 = true :=
      fun l hl => hws l (List.mem_cons_of_mem lw hl)
    have hb : 4 ≤ uw.length ∧ 4 ≤ lw.length →
        isCharBoundary uw 4 = true ∧ isCharBoundary lw 4 = true := by
      intro h1
      refine ⟨?_, hws lw (List.mem_cons_self lw rest) h1.2⟩
      rcases hu with h | h
      · omega
      · exact h
    rw [findWordAux_cons_eq uw lw rest k hb]
    simp only [List.findIdx?]
    by_cases h1 : 4 ≤ uw.length ∧ 4 ≤ lw.length
    · rw [if_pos h1]
      by_cases h2 : uw.take 4 = lw.take 4
      · have hp : ((decide (4 ≤ uw.length) && decide (4 ≤ lw.length)
            && decide (uw.take 4 = lw.take 4)) || decide (uw = lw)) = true := by
          simp [h1.1, h1.2, h2]
        rw [if_pos h2, if_pos hp]
      · rw [if_neg h2]
        by_cases h3 : uw = lw
        · have hp : ((decide (4 ≤ uw.length) && decide (4 ≤ lw.length)
              && decide (uw.take 4 = lw.take 4)) || decide (uw = lw)) = true := by
            simp [h3]
          rw [if_pos h3, if_pos hp]
        · have hp : ((decide (4 ≤ uw.length) && decide (4 ≤ lw.length)
              && decide (uw.take 4 = lw.take 4)) || decide (uw = lw)) = false := by
            simp [h2, h3]
          rw [if_neg h3]
          simp only [hp, Bool.false_eq_true, if_false]
          exact ih (k + 1) hrest
    · rw [if_neg h1]
      by_cases h3 : uw = lw
      · have hp : ((decide (4 ≤ uw.length) && decide (4 ≤ lw.length)
            && decide (uw.take 4 = lw.take 4)) || decide (uw = lw)) = true := by
          simp [h3]
        rw [if_pos h3, if_pos hp]
      · have hp : ((decide (4 ≤ uw.length) && decide (4 ≤ lw.length)
            && decide (uw.take 4 = lw.take 4)) || decide (uw = lw)) = false := by
          rcases not_and_or.mp h1 with h | h <;> simp [h, h3]
        rw [if_neg h3]
        simp only [hp, Bool.false_eq_true, if_false]
        exact ih (k + 1) hrest

/-- The user word "abcé": five UTF-8 bytes (a, b, c, then the two-byte
encoding of é), whose byte offset 4 falls inside the é. -/
def BAD_WORD : List Nat := [97, 98, 99, 195, 169]

theorem bad_word_panics : find_english_word BAD_WORD = .panicked charBoundaryMsg := by
  decide

/-- C2 counterexample: on the word "abcé" the resolver panics on a byte
slice instead of returning what the claimed rule prescribes. -/
theorem find_english_word_not_spec_on_bad_word :
    find_english_word BAD_WORD ≠ .returned (resolveSpecEnglish BAD_WORD) := by
  rw [bad_word_panics]
  intro h
  exact RunOut.noConfusion h

/-- C2 (amended): for every user word whose ASCII-lowercased byte string
either is shorter than 4 bytes or has a character boundary at byte offset
4 — in particular every ASCII word — the resolver returns exactly the
smallest dictionary index matching the specification's rule (a) or rule
(b), and None when no index matches. -/
theorem find_english_word_first_match (w : List Nat)
    (hu : (toAsciiLowercase w).length < 4 ∨
      isCharBoundary (toAsciiLowercase w) 4 = true) :
    find_english_word w = .returned (resolveSpecEnglish w) := by
  have hws : ∀ lw ∈ WORDS_ENGLISH, 4 ≤ lw.length → isCharBoundary lw 4 = true := by
    intro lw hmem h4
    have ha := List.all_eq_true.mp words_english_ascii lw hmem
    exact isCharBoundary_of_ascii lw ha 4 h4
  exact findWordAux_eq_findIdx (toAsciiLowercase w) WORDS_ENGLISH 0 hu hws

/-- C2 witness: the amended rule instantiated at the word "catch". -/
theorem find_english_word_first_match_witness :
    ((toAsciiLowercase (strBytes ("catch"))).length < 4 ∨
      isCharBoundary (toAsciiLowercase (strBytes ("catch"))) 4 = true) ∧
    find_english_word (strBytes ("catch")) =
      .returned (resolveSpecEnglish (strBytes ("catch"))) :=
  ⟨by decide, find_english_word_first_match (strBytes ("catch")) (by decide)⟩

/-! ### Panic on multibyte input (C9) and the unknown-word error (C4) -/

/-- A twelve-word phrase led by "abcé". -/
def CEX9_PHRASE : List (List Nat) :=
  BAD_WORD :: List.replicate 11 (strBytes ("abandon"))

/-- C9: the decoder panics (byte slice off a character boundary) on a
well-formed twelve-word UTF-8 phrase instead of returning a value or a
typed error. -/
theorem decode_panics_on_bad_word :
    mnemonic_to_entropy CEX9_PHRASE = .panicked charBoundaryMsg := by
  decide

def ZZZZZ : List Nat := strBytes ("zzzzz")

/-- A twelve-word phrase whose first word panics the resolver and whose
second word is absent from the dictionary. -/
def CEX4_PHRASE : List (List Nat) :=
  BAD_WORD :: ZZZZZ :: List.replicate 10 (strBytes ("abandon"))

def isUnknownWordFailure : DecodeOut (List Nat) → Bool
  | .failed (.unknownWord _) => true
  | _ => false

/-- C4 counterexample: CEX4_PHRASE contains the word "zzzzz", which the
resolver cannot find, yet decoding does not fail with an unknown-word
error: it panics on the earlier word "abcé". -/
theorem decode_no_unknown_word_error_on_cex4 :
    find_word ZZZZZ = .returned none ∧
    isUnknownWordFailure (mnemonic_to_entropy CEX4_PHRASE) = false :=
  ⟨find_zzzzz, by decide⟩

/-- The resolution loop fails with the unknown-word error naming `w0`
when all earlier words resolve and `w0` does not. -/
theorem bitVecLoop_unknown (pre post : List (List Nat)) (w0 : List Nat)
    (hpre : ∀ w ∈ pre, ∃ i, find_word w = .returned (some i))
    (h0 : find_word w0 = .returned none) :
    bitVecLoop (pre ++ w0 :: post) = .failed (.unknownWord w0) := by
  induction pre with
  | nil => simp only [List.nil_append, bitVecLoop, h0]
  | cons w pre ih =>
    obtain ⟨i, hi⟩ := hpre w (List.mem_cons_self w pre)
    have ih2 := ih (fun x hx => hpre x (List.mem_cons_of_mem w hx))
    simp only [List.cons_append, bitVecLoop, hi, List.append_eq, ih2]

/-- C4 (amended): for every twelve-word phrase in which the words before
some word `w0` all resolve and `w0` does not resolve, decoding fails with
the unknown-word error naming `w0` (the first unresolved word), and no
entropy is produced. -/
theorem decode_unknown_word (pre post : List (List Nat)) (w0 : List Nat)
    (h12 : (pre ++ w0 :: post).length = 12)
    (hpre : ∀ w ∈ pre, ∃ i, find_word w = .returned (some i))
    (h0 : find_word w0 = .returned none) :
    mnemonic_to_entropy (pre ++ w0 :: post) = .failed (.unknownWord w0) := by
  have hlen : ¬((pre ++ w0 :: post).length ≠ 12) := fun hne => hne h12
  simp only [mnemonic_to_entropy, bitVecLoop_unknown pre post w0 hpre h0]
  rw [if_neg hlen]

/-- C4 witness: the phrase "zzzzz abandon ... abandon" fails naming
"zzzzz". -/
theorem decode_unknown_word_witness :
    find_word ZZZZZ = .returned none ∧
    mnemonic_to_entropy (([] : List (List Nat)) ++
        ZZZZZ :: List.replicate 11 (strBytes ("abandon"))) =
      .failed (.unknownWord ZZZZZ) :=
  ⟨find_zzzzz,
   decode_unknown_word [] (List.replicate 11 (strBytes ("abandon"))) ZZZZZ
     (by decide) (fun w hw => absurd hw (List.not_mem_nil w)) find_zzzzz⟩

/-! ### The word-count check (C3) -/

/-- The resolution loop can only fail with an unknown-word error. -/
theorem bitVecLoop_failed_is_unknown (ws : List (List Nat)) (e : DecodeErr)
    (h : bitVecLoop ws = .failed e) : ∃ w, e = .unknownWord w := by
  induction ws with
  | nil => simp [bitVecLoop] at h
  | cons w ws ih =>
    simp only [bitVecLoop] at h
    cases hf : find_word w with
    | panicked m => rw [hf] at h; simp at h
    | returned o =>
      rw [hf] at h
      cases o with
      | none =>
        simp only [DecodeOut.failed.injEq] at h
        exact ⟨w, h.symm⟩
      | some i =>
        cases hbv : bitVecLoop ws with
        | panicked m => rw [hbv] at h; simp at h
        | failed e2 =>
          rw [hbv] at h
          simp only [DecodeOut.failed.injEq] at h
          subst h
          exact ih hbv
        | done bv => rw [hbv] at h; simp at h

/-- The assembly stage can only fail with the checksum error. -/
theorem assembleEntropy_failed_is_checksum (bv : List (List Char)) (e : DecodeErr)
    (h : assembleEntropy bv = .failed e) : e = .checksum := by
  simp only [assembleEntropy] at h
  by_cases hc : bv.flatten.drop (dividerIndex bv.flatten.length) ≠ ['0', '0', '0', '0']
  · rw [if_pos hc] at h
    simp only [DecodeOut.failed.injEq] at h
    exact h.symm
  · rw [if_neg hc] at h
    cases hw : writeBytes (chunksUpTo8 (bv.flatten.take (dividerIndex bv.flatten.length)))
        (List.replicate 16 0) 0 with
    | panicked m => rw [hw] at h; simp at h
    | returned base => rw [hw] at h; simp at h

/-- C3: decoding fails with the word-count error exactly when the phrase
does not have twelve words; no other path produces that error. -/
theorem decode_word_count_iff (ws : List (List Nat)) :
    mnemonic_to_entropy ws = .failed .wordCount ↔ ws.length ≠ 12 := by
  constructor
  · intro h
    by_contra hlen
    have hlen2 : ¬(ws.length ≠ 12) := fun hne => hne hlen
    simp only [mnemonic_to_entropy, if_neg hlen2] at h
    cases hbv : bitVecLoop ws with
    | panicked m => rw [hbv] at h; simp at h
    | failed e =>
      rw [hbv] at h
      simp only [DecodeOut.failed.injEq] at h
      obtain ⟨w, hw⟩ := bitVecLoop_failed_is_unknown ws e hbv
      rw [hw] at h
      exact DecodeErr.noConfusion h
    | done bv =>
      rw [hbv] at h
      have := assembleEntropy_failed_is_checksum bv .wordCount h
      exact DecodeErr.noConfusion this
  · intro h
    simp only [mnemonic_to_entropy, if_pos h]

/-! ### The packed bit stream and the divider (C5) -/

/-- Being the exactly-11-character MSB-first zero-padded binary rendering
of `i`: length 11, only binary digit characters, and parsing back as a
base-2 number recovers `i`. -/
def isRendering11 (i : Nat) (r : List Char) : Prop :=
  r.length = 11 ∧ (∀ c ∈ r, c = '0' ∨ c = '1') ∧ parseBin r = some i

instance (i : Nat) (r : List Char) : Decidable (isRendering11 i r) := by
  unfold isRendering11
  infer_instance

theorem format011_ok_lo : ∀ i, i < 1024 → isRendering11 i (format011 i) := by decide

theorem format011_ok_hi : ∀ j, j < 1024 → isRendering11 (1024 + j) (format011 (1024 + j)) := by
  decide

/-- For every index below 2048, `format!("{:011b}", i)` is its
11-character rendering. -/
theorem format011_ok (i : Nat) (h : i < 2048) : isRendering11 i (format011 i) := by
  by_cases h1 : i < 1024
  · exact format011_ok_lo i h1
  · have hsplit : i = 1024 + (i - 1024) := by omega
    rw [hsplit]
    exact format011_ok_hi (i - 1024) (by omega)

theorem flatten_length_all11 (rs : List (List Char)) (h : ∀ r ∈ rs, r.length = 11) :
    rs.flatten.length = 11 * rs.length := by
  induction rs with
  | nil => simp
  | cons r rs ih =>
    simp only [List.flatten_cons, List.length_append, List.length_cons]
    rw [h r (List.mem_cons_self r rs), ih (fun x hx => h x (List.mem_cons_of_mem r hx))]
    ring

theorem flatten_length_132 (idxs : List Nat) (h12 : idxs.length = 12)
    (hb : ∀ i ∈ idxs, i < 2048) :
    (idxs.map format011).flatten.length = 132 := by
  rw [flatten_length_all11 (idxs.map format011) (by
    intro r hr
    obtain ⟨i, hi, rfl⟩ := List.mem_map.mp hr
    exact (format011_ok i (hb i hi)).1)]
  rw [List.length_map, h12]

/-- C5: for a twelve-word phrase in which every word resolves (to indices
below 2048), the decoder's bit stream is the concatenation, in phrase
order, of the exactly-11-character MSB-first zero-padded renderings of
the indices; its total length is 132; and the computed split point equals
bit offset 128, so the entropy region is the first 128 bits and the
checksum region the last 4 bits. -/
theorem bitstream_and_divider (ws : List (List Nat)) (idxs : List Nat)
    (h12 : ws.length = 12)
    (hres : ws.map find_word = idxs.map (fun i => RunOut.returned (some i)))
    (hb : ∀ i ∈ idxs, i < 2048) :
    bitVecLoop ws = .done (idxs.map format011) ∧
    (∀ i ∈ idxs, isRendering11 i (format011 i)) ∧
    (idxs.map format011).flatten.length = 132 ∧
    dividerIndex ((idxs.map format011).flatten.length) = 128 := by
  have hlen : idxs.length = 12 := by
    have hml := congrArg List.length hres
    simp only [List.length_map] at hml
    omega
  refine ⟨bitVecLoop_of_resolved ws idxs hres, ?_, ?_, ?_⟩
  · intro i hi
    exact format011_ok i (hb i hi)
  · exact flatten_length_132 idxs hlen hb
  · rw [flatten_length_132 idxs hlen hb]
    rfl

/-- C5 witness: the all-"abandon" phrase, whose twelve indices are 0. -/
theorem bitstream_and_divider_witness :
    ((List.replicate 12 (strBytes ("abandon"))).map find_word =
      (List.replicate 12 0).map (fun i => RunOut.returned (some i))) ∧
    bitVecLoop (List.replicate 12 (strBytes ("abandon"))) =
      .done ((List.replicate 12 0).map format011) ∧
    dividerIndex (((List.replicate 12 0).map format011).flatten.length) = 128 := by
  have h := bitstream_and_divider (List.replicate 12 (strBytes ("abandon")))
    (List.replicate 12 0) (by decide) (by decide) (by decide)
  exact ⟨by decide, h.1, h.2.2.2⟩

/-! ### The checksum check (C6) and the duplication rule (C7) -/

/-- C6: for a twelve-word phrase whose words all resolve to indices below
2048, decoding fails with the checksum error exactly when the last four
bits of the 132-bit stream are not the literal string "0000". -/
theorem decode_checksum_iff (ws : List (List Nat)) (idxs : List Nat)
    (h12 : ws.length = 12)
    (hres : ws.map find_word = idxs.map (fun i => RunOut.returned (some i)))
    (hb : ∀ i ∈ idxs, i < 2048) :
    (mnemonic_to_entropy ws = .failed .checksum ↔
      (idxs.map format011).flatten.drop 128 ≠ ['0', '0', '0', '0']) := by
  have hlen : idxs.length = 12 := by
    have hml := congrArg List.length hres
    simp only [List.length_map] at hml
    omega
  have hlen2 : ¬(ws.length ≠ 12) := fun hne => hne h12
  have hbits : (idxs.map format011).flatten.length = 132 := flatten_length_132 idxs hlen hb
  have hdiv : dividerIndex ((idxs.map format011).flatten.length) = 128 := by
    rw [hbits]
    rfl
  simp only [mnemonic_to_entropy, if_neg hlen2,
    bitVecLoop_of_resolved ws idxs hres, assembleEntropy, hdiv]
  by_cases hc : (idxs.map format011).flatten.drop 128 ≠ ['0', '0', '0', '0']
  · rw [if_pos hc]
    simp [hc]
  · rw [if_neg hc]
    cases hw : writeBytes (chunksUpTo8 ((idxs.map format011).flatten.take 128))
        (List.replicate 16 0) 0 with
    | panicked m => simp [hc]
    | returned base => simp [hc]

/-- C6 witness: eleven times "abandon" then "ability" (indices 0,...,0,1),
whose last four bits are "0001". -/
theorem decode_checksum_iff_witness :
    ((List.replicate 11 (strBytes ("abandon")) ++ [strBytes ("ability")]).map find_word =
      (List.replicate 11 0 ++ [1]).map (fun i => RunOut.returned (some i))) ∧
    (mnemonic_to_entropy (List.replicate 11 (strBytes ("abandon")) ++ [strBytes ("ability")]) =
        .failed .checksum ↔
      ((List.replicate 11 0 ++ [1]).map format011).flatten.drop 128 ≠ ['0', '0', '0', '0']) := by
  have h := decode_checksum_iff
    (List.replicate 11 (strBytes ("abandon")) ++ [strBytes ("ability")])
    (List.replicate 11 0 ++ [1]) (by decide) (by decide) (by decide)
  exact ⟨by decide, h⟩

/-- A successful write loop preserves the buffer length. -/
theorem writeBytes_length (cs : List (List Char)) (arr : List Nat) (k : Nat) (res : List Nat)
    (h : writeBytes cs arr k = .returned res) : res.length = arr.length := by
  induction cs generalizing arr k with
  | nil =>
    simp only [writeBytes, RunOut.returned.injEq] at h
    rw [← h]
  | cons c cs ih =>
    simp only [writeBytes] at h
    split at h
    · exact absurd h (by simp)
    · split at h
      · simpa [List.length_set] using ih _ _ h
      · exact absurd h (by simp)

/-- C7: every successful decode returns the 16 bytes reconstructed from
the entropy region followed by an exact copy of them: bytes 16-31 equal
bytes 0-15, and the output has 32 bytes. -/
theorem decode_duplication (ws : List (List Nat)) (out : List Nat)
    (h : mnemonic_to_entropy ws = .done out) :
    ∃ bv base,
      bitVecLoop ws = .done bv ∧
      writeBytes (chunksUpTo8 (bv.flatten.take (dividerIndex bv.flatten.length)))
        (List.replicate 16 0) 0 = .returned base ∧
      base.length = 16 ∧ out = base ++ base ∧
      out.length = 32 ∧ out.take 16 = out.drop 16 := by
  simp only [mnemonic_to_entropy] at h
  by_cases hlen : ws.length ≠ 12
  · rw [if_pos hlen] at h
    exact absurd h (by simp)
  · rw [if_neg hlen] at h
    cases hbv : bitVecLoop ws with
    | panicked m => rw [hbv] at h; simp at h
    | failed e => rw [hbv] at h; simp at h
    | done bv =>
      rw [hbv] at h
      simp only [assembleEntropy] at h
      by_cases hc : bv.flatten.drop (dividerIndex bv.flatten.length) ≠ ['0', '0', '0', '0']
      · rw [if_pos hc] at h
        simp at h
      · rw [if_neg hc] at h
        cases hw : writeBytes (chunksUpTo8 (bv.flatten.take (dividerIndex bv.flatten.length)))
            (List.replicate 16 0) 0 with
        | panicked m => rw [hw] at h; simp at h
        | returned base =>
          rw [hw] at h
          simp only [DecodeOut.done.injEq] at h
          have hb16 : base.length = 16 := by
            simpa using writeBytes_length _ _ _ _ hw
          refine ⟨bv, base, rfl, hw, hb16, h.symm, ?_, ?_⟩
          · rw [← h]
            simp [hb16]
          · rw [← h]
            rw [show (16 : Nat) = base.length from hb16.symm]
            rw [List.take_left, List.drop_left]

/-- C7 witness: the all-"abandon" phrase decodes to 32 zero bytes. -/
theorem decode_duplication_witness :
    mnemonic_to_entropy (List.replicate 12 (strBytes ("abandon"))) =
      .done (List.replicate 32 0) ∧
    (∃ bv base,
      bitVecLoop (List.replicate 12 (strBytes ("abandon"))) = .done bv ∧
      writeBytes (chunksUpTo8 (bv.flatten.take (dividerIndex bv.flatten.length)))
        (List.replicate 16 0) 0 = .returned base ∧
      base.length = 16 ∧ List.replicate 32 0 = base ++ base ∧
      (List.replicate 32 0).length = 32 ∧
      (List.replicate 32 0).take 16 = (List.replicate 32 0).drop 16) :=
  ⟨by decide,
   decode_duplication (List.replicate 12 (strBytes ("abandon"))) (List.replicate 32 0)
     (by decide)⟩

/-! ### Abbreviation equivalence (C8) -/

/-- If the scan finds the full word, it finds the four-byte prefix at the
same index. -/
theorem findWordAux_take4 (uw : List Nat) (ws : List (List Nat)) (k i : Nat)
    (h4 : 4 ≤ uw.length)
    (h : findWordAux uw ws k = .returned (some i)) :
    findWordAux (uw.take 4) ws k = .returned (some i) := by
  induction ws generalizing k with
  | nil => simp [findWordAux] at h
  | cons lw rest ih =>
    have hlen4 : (uw.take 4).length = 4 := by
      simp only [List.length_take]
      omega
    by_cases h1 : 4 ≤ uw.length ∧ 4 ≤ lw.length
    · by_cases hbu : isCharBoundary uw 4 = true
      · by_cases hbl : isCharBoundary lw 4 = true
        · rw [findWordAux_cons_eq uw lw rest k (fun _ => ⟨hbu, hbl⟩)] at h
          rw [if_pos h1] at h
          have hbu4 : isCharBoundary (uw.take 4) 4 = true := by
            unfold isCharBoundary
            rw [if_neg (by omega : ¬(4 : Nat) = 0)]
            rw [List.getElem?_eq_none (by omega)]
            simp [hlen4]
          rw [findWordAux_cons_eq (uw.take 4) lw rest k (fun _ => ⟨hbu4, hbl⟩)]
          rw [if_pos ⟨by omega, h1.2⟩]
          simp only [List.take_take, Nat.min_self]
          by_cases h2 : uw.take 4 = lw.take 4
          · rw [if_pos h2] at h
            rw [if_pos h2]
            exact h
          · rw [if_neg h2] at h
            rw [if_neg h2]
            by_cases h3 : uw = lw
            · exact absurd (by rw [h3]) h2
            · rw [if_neg h3] at h
              by_cases h5 : uw.take 4 = lw
              · exfalso
                apply h2
                rw [← h5]
                simp [List.take_take]
              · rw [if_neg h5]
                exact ih (k + 1) h
        · exfalso
          simp only [findWordAux, if_pos h1] at h
          rw [show sliceTo uw 4 = .returned (uw.take 4) by simp [sliceTo, hbu]] at h
          rw [show sliceTo lw 4 = .panicked charBoundaryMsg by simp [sliceTo, hbl]] at h
          simp at h
      · exfalso
        simp only [findWordAux, if_pos h1] at h
        rw [show sliceTo uw 4 = .panicked charBoundaryMsg by simp [sliceTo, hbu]] at h
        simp at h
    · have hlw : lw.length < 4 := by
        rcases not_and_or.mp h1 with hc | hc <;> omega
      simp only [findWordAux] at h ⊢
      rw [if_neg h1] at h
      rw [if_neg (fun hc => absurd hc.2 (by omega))]
      by_cases h3 : uw = lw
      · exfalso
        have := congrArg List.length h3
        omega
      · rw [if_neg h3] at h
        rw [if_neg (fun h5 => by
          have := congrArg List.length h5
          rw [hlen4] at this
          omega)]
        exact ih (k + 1) h

theorem find_word_take4 (w : List Nat) (i : Nat) (h4 : 4 ≤ w.length)
    (h : find_word w = .returned (some i)) :
    find_word (w.take 4) = .returned (some i) := by
  have hl : toAsciiLowercase (w.take 4) = (toAsciiLowercase w).take 4 := by
    simp [toAsciiLowercase, List.map_take]
  show findWordAux (toAsciiLowercase (w.take 4)) WORDS_ENGLISH 0 = _
  rw [hl]
  exact findWordAux_take4 (toAsciiLowercase w) WORDS_ENGLISH 0 i
    (by simpa [toAsciiLowercase] using h4) h

theorem bitVecLoop_take4 (ws : List (List Nat)) (bv : List (List Char))
    (h4 : ∀ w ∈ ws, 4 ≤ w.length) (h : bitVecLoop ws = .done bv) :
    bitVecLoop (ws.map (fun w => w.take 4)) = .done bv := by
  induction ws generalizing bv with
  | nil => simpa using h
  | cons w ws ih =>
    simp only [bitVecLoop] at h
    cases hf : find_word w with
    | panicked m => rw [hf] at h; simp at h
    | returned o =>
      rw [hf] at h
      cases o with
      | none => simp at h
      | some i =>
        cases hbv : bitVecLoop ws with
        | panicked m => rw [hbv] at h; simp at h
        | failed e => rw [hbv] at h; simp at h
        | done rest =>
          rw [hbv] at h
          simp only [DecodeOut.done.injEq] at h
          subst h
          have hf4 := find_word_take4 w i (h4 w (List.mem_cons_self w ws)) hf
          have ih2 := ih rest (fun x hx => h4 x (List.mem_cons_of_mem w hx)) hbv
          simp only [List.map_cons, bitVecLoop, hf4, ih2]

/-- C8: for every phrase that decodes successfully and whose words all
have at least four bytes, replacing each word by its first four bytes
yields exactly the same 32-byte entropy. -/
theorem decode_prefix4 (ws : List (List Nat)) (out : List Nat)
    (h4 : ∀ w ∈ ws, 4 ≤ w.length)
    (h : mnemonic_to_entropy ws = .done out) :
    mnemonic_to_entropy (ws.map (fun w => w.take 4)) = .done out := by
  simp only [mnemonic_to_entropy] at h ⊢
  by_cases hlen : ws.length ≠ 12
  · rw [if_pos hlen] at h
    exact absurd h (by simp)
  · rw [if_neg hlen] at h
    rw [if_neg (by simpa [List.length_map] using hlen)]
    cases hbv : bitVecLoop ws with
    | panicked m => rw [hbv] at h; simp at h
    | failed e => rw [hbv] at h; simp at h
    | done bv =>
      rw [hbv] at h
      rw [bitVecLoop_take4 ws bv h4 hbv]
      exact h

/-- The abbreviated phrase of concrete scenario 2. -/
def ABBREV_PHRASE : List (List Nat) :=
  (["catc", "poet", "clog", "inta", "scar", "jack",
    "thro", "palm", "ille", "buye", "allo", "figu"] : List String).map strBytes

/-- C8 witness: the abbreviated phrase is the four-byte-prefix image of
the full phrase and decodes to the identical entropy. -/
theorem decode_prefix4_witness :
    (∀ w ∈ FULL_PHRASE, 4 ≤ w.length) ∧
    ABBREV_PHRASE = FULL_PHRASE.map (fun w => w.take 4) ∧
    mnemonic_to_entropy ABBREV_PHRASE = .done EXPECTED_ENTROPY := by
  refine ⟨by decide, by decide, ?_⟩
  rw [show ABBREV_PHRASE = FULL_PHRASE.map (fun w => w.take 4) by decide]
  exact decode_prefix4 FULL_PHRASE EXPECTED_ENTROPY (by decide) decode_full

/-! ### Safety of the byte reconstruction (C10) -/

theorem words_english_length : WORDS_ENGLISH.length = 2048 := by
  rw [WORDS_split, List.length_append, WE1_length]
  rw [show WE2.length = 1024 by rw [WE2, List.length_map]; decide]

/-- One full scan step expressed with plain conditionals (panics
included). -/
theorem findWordAux_cons_full (uw lw : List Nat) (rest : List (List Nat)) (k : Nat) :
    findWordAux uw (lw :: rest) k =
      if 4 ≤ uw.length ∧ 4 ≤ lw.length then
        if isCharBoundary uw 4 = true then
          if isCharBoundary lw 4 = true then
            if uw.take 4 = lw.take 4 then .returned (some k)
            else if uw = lw then .returned (some k)
            else findWordAux uw rest (k + 1)
          else .panicked charBoundaryMsg
        else .panicked charBoundaryMsg
      else if uw = lw then .returned (some k) else findWordAux uw rest (k + 1) := by
  by_cases h1 : 4 ≤ uw.length ∧ 4 ≤ lw.length
  · by_cases hbu : isCharBoundary uw 4 = true
    · by_cases hbl : isCharBoundary lw 4 = true
      · simp only [findWordAux, if_pos h1, sliceTo, hbu, hbl, eq_self_iff_true, if_true]
      · simp [findWordAux, if_pos h1, sliceTo, hbu, hbl]
    · simp [findWordAux, if_pos h1, sliceTo, hbu]
  · simp [findWordAux, if_neg h1]

/-- Any index the scan returns is below the start index plus the list
length. -/
theorem findWordAux_lt (uw : List Nat) (ws : List (List Nat)) (k i : Nat)
    (h : findWordAux uw ws k = .returned (some i)) : i < k + ws.length := by
  induction ws generalizing k with
  | nil => simp [findWordAux] at h
  | cons lw rest ih =>
    rw [findWordAux_cons_full] at h
    simp only [List.length_cons]
    by_cases h1 : 4 ≤ uw.length ∧ 4 ≤ lw.length
    · rw [if_pos h1] at h
      by_cases hbu : isCharBoundary uw 4 = true
      · rw [if_pos hbu] at h
        by_cases hbl : isCharBoundary lw 4 = true
        · rw [if_pos hbl] at h
          by_cases h2 : uw.take 4 = lw.take 4
          · rw [if_pos h2] at h
            simp only [RunOut.returned.injEq, Option.some.injEq] at h
            omega
          · rw [if_neg h2] at h
            by_cases h3 : uw = lw
            · rw [if_pos h3] at h
              simp only [RunOut.returned.injEq, Option.some.injEq] at h
              omega
            · rw [if_neg h3] at h
              have := ih (k + 1) h
              omega
        · rw [if_neg hbl] at h
          simp at h
      · rw [if_neg hbu] at h
        simp at h
    · rw [if_neg h1] at h
      by_cases h3 : uw = lw
      · rw [if_pos h3] at h
        simp only [RunOut.returned.injEq, Option.some.injEq] at h
        omega
      · rw [if_neg h3] at h
        have := ih (k + 1) h
        omega

theorem find_word_lt (w : List Nat) (i : Nat)
    (h : find_word w = .returned (some i)) : i < 2048 := by
  have hlt := findWordAux_lt (toAsciiLowercase w) WORDS_ENGLISH 0 i h
  rw [words_english_length] at hlt
  omega

/-- A successful resolution loop yields exactly the renderings of a list
of indices below 2048, one per word. -/
theorem bitVecLoop_done_shape (ws : List (List Nat)) (bv : List (List Char))
    (h : bitVecLoop ws = .done bv) :
    ∃ idxs : List Nat, bv = idxs.map format011 ∧ idxs.length = ws.length ∧
      ∀ i ∈ idxs, i < 2048 := by
  induction ws generalizing bv with
  | nil =>
    simp only [bitVecLoop, DecodeOut.done.injEq] at h
    exact ⟨[], by simp [← h], by simp [← h], by simp⟩
  | cons w ws ih =>
    simp only [bitVecLoop] at h
    cases hf : find_word w with
    | panicked m => rw [hf] at h; simp at h
    | returned o =>
      rw [hf] at h
      cases o with
      | none => simp at h
      | some i =>
        cases hbv : bitVecLoop ws with
        | panicked m => rw [hbv] at h; simp at h
        | failed e => rw [hbv] at h; simp at h
        | done rest =>
          rw [hbv] at h
          simp only [DecodeOut.done.injEq] at h
          obtain ⟨idxs, h1, h2, h3⟩ := ih rest hbv
          refine ⟨i :: idxs, ?_, by simp [h2], ?_⟩
          · rw [← h, h1]
            simp
          · intro j hj
            rcases List.mem_cons.mp hj with rfl | hj
            · exact find_word_lt w j hf
            · exact h3 j hj

/-- The chunks of the regex reassemble to the original string. -/
theorem chunksUpTo8_flatten : ∀ l : List Char, (chunksUpTo8 l).flatten = l
  | [] => rfl
  | [a] => rfl
  | [a, b] => rfl
  | [a, b, c] => rfl
  | [a, b, c, d] => rfl
  | [a, b, c, d, e] => rfl
  | [a, b, c, d, e, f] => rfl
  | [a, b, c, d, e, f, g] => rfl
  | a :: b :: c :: d :: e :: f :: g :: h :: rest => by
    simp only [chunksUpTo8, List.flatten_cons]
    rw [chunksUpTo8_flatten rest]
    rfl

/-- On input of length `8 * k`, the regex produces exactly `k` chunks of
length 8. -/
theorem chunksUpTo8_shape : ∀ (k : Nat) (l : List Char), l.length = 8 * k →
    (chunksUpTo8 l).length = k ∧ ∀ c ∈ chunksUpTo8 l, c.length = 8
  | 0, l, h => by
    have hnil : l = [] := List.eq_nil_of_length_eq_zero (by omega)
    subst hnil
    refine ⟨rfl, ?_⟩
    intro c hc
    simp [chunksUpTo8] at hc
  | k + 1, [], h => by simp at h
  | k + 1, [a], h => by simp at h; omega
  | k + 1, [a, b], h => by simp at h; omega
  | k + 1, [a, b, c], h => by simp at h; omega
  | k + 1, [a, b, c, d], h => by simp at h; omega
  | k + 1, [a, b, c, d, e], h => by simp at h; omega
  | k + 1, [a, b, c, d, e, f], h => by simp at h; omega
  | k + 1, [a, b, c, d, e, f, g], h => by simp at h; omega
  | k + 1, a :: b :: c :: d :: e :: f :: g :: hh :: rest, h => by
    have hr : rest.length = 8 * k := by
      simp only [List.length_cons] at h
      omega
    obtain ⟨h1, h2⟩ := chunksUpTo8_shape k rest hr
    refine ⟨by simp [chunksUpTo8, h1], ?_⟩
    intro cc hcc
    simp only [chunksUpTo8, List.mem_cons] at hcc
    rcases hcc with rfl | hcc
    · rfl
    · exact h2 cc hcc

/-- Parsing a nonempty string of binary digit characters never fails. -/
theorem parseBinAux_some : ∀ (c : List Char),
    (∀ ch ∈ c, ch = '0' ∨ ch = '1') → ∀ acc, ∃ n, parseBinAux c acc = some n
  | [], _, acc => ⟨acc, rfl⟩
  | ch :: cs, hbin, acc => by
    have htail : ∀ x ∈ cs, x = '0' ∨ x = '1' :=
      fun x hx => hbin x (List.mem_cons_of_mem ch hx)
    rcases hbin ch (List.mem_cons_self ch cs) with h0 | h0 <;> subst h0
    · simpa [parseBinAux, binDigitVal] using parseBinAux_some cs htail (acc * 2 + 0)
    · simpa [parseBinAux, binDigitVal] using parseBinAux_some cs htail (acc * 2 + 1)

theorem binary_to_bytes_returns (c : List Char) (hne : c ≠ [])
    (hbin : ∀ ch ∈ c, ch = '0' ∨ ch = '1') :
    ∃ n, binary_to_bytes c = .returned n := by
  obtain ⟨n, hn⟩ := parseBinAux_some c hbin 0
  exact ⟨n, by simp [binary_to_bytes, parseBin, if_neg hne, hn]⟩

/-- The write loop returns whenever there is room for every chunk and
every chunk parses. -/
theorem writeBytes_returns : ∀ (cs : List (List Char)) (arr : List Nat) (k : Nat),
    cs.length + k ≤ arr.length →
    (∀ c ∈ cs, ∃ n, binary_to_bytes c = .returned n) →
    ∃ res, writeBytes cs arr k = .returned res
  | [], arr, k, _, _ => ⟨arr, rfl⟩
  | c :: cs, arr, k, hlen, hok => by
    obtain ⟨n, hn⟩ := hok c (List.mem_cons_self c cs)
    have hk : k < arr.length := by
      simp only [List.length_cons] at hlen
      omega
    obtain ⟨res, hres⟩ := writeBytes_returns cs (arr.set k (n % 256)) (k + 1)
      (by
        simp only [List.length_set, List.length_cons] at hlen ⊢
        omega)
      (fun x hx => hok x (List.mem_cons_of_mem c hx))
    refine ⟨res, ?_⟩
    simp only [writeBytes, hn]
    rw [if_pos hk]
    exact hres

/-- C10: whenever decoding reaches the byte-reconstruction step (twelve
words, all resolved), the entropy region consists solely of the
characters '0' and '1' and has length 128, it partitions into exactly 16
groups of 8 characters, every group parses as a base-2 number (the
unwrap inside binary_to_bytes is unreachable), and the write loop into
the 16-byte buffer stays in bounds and returns. -/
theorem reconstruction_safe (ws : List (List Nat)) (bv : List (List Char))
    (h12 : ws.length = 12) (h : bitVecLoop ws = .done bv) :
    (bv.flatten.take (dividerIndex bv.flatten.length)).length = 128 ∧
    (∀ ch ∈ bv.flatten.take (dividerIndex bv.flatten.length), ch = '0' ∨ ch = '1') ∧
    (chunksUpTo8 (bv.flatten.take (dividerIndex bv.flatten.length))).length = 16 ∧
    (∀ c ∈ chunksUpTo8 (bv.flatten.take (dividerIndex bv.flatten.length)), c.length = 8) ∧
    (∀ c ∈ chunksUpTo8 (bv.flatten.take (dividerIndex bv.flatten.length)),
      ∃ n, binary_to_bytes c = .returned n) ∧
    (∃ res, writeBytes (chunksUpTo8 (bv.flatten.take (dividerIndex bv.flatten.length)))
      (List.replicate 16 0) 0 = .returned res) := by
  obtain ⟨idxs, hshape, hlen, hbound⟩ := bitVecLoop_done_shape ws bv h
  subst hshape
  have hlen12 : idxs.length = 12 := by omega
  have hbits : (idxs.map format011).flatten.length = 132 :=
    flatten_length_132 idxs hlen12 hbound
  have hdiv : dividerIndex ((idxs.map format011).flatten.length) = 128 := by
    rw [hbits]
    rfl
  rw [hdiv]
  have htake : ((idxs.map format011).flatten.take 128).length = 128 := by
    simp [List.length_take, hbits]
  have hbin : ∀ ch ∈ (idxs.map format011).flatten.take 128, ch = '0' ∨ ch = '1' := by
    intro ch hch
    have hch2 : ch ∈ (idxs.map format011).flatten := List.take_subset 128 _ hch
    obtain ⟨r, hr, hchr⟩ := List.mem_flatten.mp hch2
    obtain ⟨i, hi, rfl⟩ := List.mem_map.mp hr
    exact (format011_ok i (hbound i hi)).2.1 ch hchr
  obtain ⟨hclen, hc8⟩ := chunksUpTo8_shape 16 ((idxs.map format011).flatten.take 128)
    (by rw [htake])
  have hparse : ∀ c ∈ chunksUpTo8 ((idxs.map format011).flatten.take 128),
      ∃ n, binary_to_bytes c = .returned n := by
    intro c hc
    apply binary_to_bytes_returns
    · have hc8c := hc8 c hc
      intro hnil
      rw [hnil] at hc8c
      simp at hc8c
    · intro x hx
      apply hbin x
      rw [← chunksUpTo8_flatten ((idxs.map format011).flatten.take 128)]
      exact List.mem_flatten.mpr ⟨c, hc, hx⟩
  refine ⟨htake, hbin, hclen, hc8, hparse, ?_⟩
  apply writeBytes_returns
  · simp [hclen]
  · exact hparse

/-- C10 witness: the reconstruction facts at the all-"abandon" phrase. -/
theorem reconstruction_safe_witness :
    bitVecLoop (List.replicate 12 (strBytes ("abandon"))) =
      .done (List.replicate 12 (format011 0)) ∧
    (∃ res, writeBytes (chunksUpTo8 ((List.replicate 12 (format011 0)).flatten.take
        (dividerIndex (List.replicate 12 (format011 0)).flatten.length)))
      (List.replicate 16 0) 0 = .returned res) := by
  have hbv : bitVecLoop (List.replicate 12 (strBytes ("abandon"))) =
      .done (List.replicate 12 (format011 0)) := by decide
  have h := reconstruction_safe (List.replicate 12 (strBytes ("abandon")))
    (List.replicate 12 (format011 0)) (by decide) hbv
  exact ⟨hbv, h.2.2.2.2.2⟩
